import Mathlib

/-!
Verification of the AI-Steganography repository's importance-guided LSB codec
and its uniform raster-scan variants, as a shallow embedding in Lean 4.

Modelling conventions:
* An image is its pixel buffer: a width, a height and a row-major list of
  `(r, g, b)` channel triples, each channel an integer 0–255 (`Nat`; the
  arithmetic the code performs — `& ~1`, `| bit`, `& 0xFE`, `& 1` — is
  represented exactly on `Nat`).
* File I/O is out of the embedding.  A decoder that opens a path receives an
  `Option Image`: `none` models a path that fails validation or loading, and
  the exception that Python raises there becomes an `Except.error`.
* The Sobel-plus-minmax-normalisation step (`skimage.filters.sobel` followed
  by `cv2.normalize(..., NORM_MINMAX)`) is an external image-processing
  primitive; it is passed in as an opaque function `edgeNorm` from a grayscale
  grid to an importance grid, the same function on the encode and decode
  sides (both call the same library).  Grayscale conversion itself
  (`cv2.cvtColor BGR2GRAY` / `cv2.imread IMREAD_GRAYSCALE`) uses OpenCV's
  exact fixed-point arithmetic and is embedded exactly.
* Python's stable `list.sort` is embedded as insertion sort, which is stable;
  a stable sort's output is uniquely determined by the key order, so this is
  observationally the sort the code performs.
-/

namespace Steg

/-- A pixel: `(r, g, b)` channel values. -/
abbrev Pixel := Nat × Nat × Nat

/-- An image: dimensions plus a row-major pixel buffer
(`data[y * width + x]` is the pixel at `(x, y)`). -/
structure Image where
  width : Nat
  height : Nat
  data : List Pixel
deriving DecidableEq, Repr

/-- Errors raised by the Python code (all are `ValueError`/`IOError`
subclasses; we distinguish the raise sites). -/
inductive Err where
  /-- `validate_image_path` / `cv2.imread` / `Image.open` failure. -/
  | loadError : Err
  /-- `"Message too large for image. Maximum size: ..."` (whole-image check). -/
  | messageTooLarge : Err
  /-- `"Not enough suitable pixels for encoding. ..."` (candidate-count check). -/
  | notEnoughPixels : Err
deriving DecidableEq, Repr

/-- OpenCV's exact fixed-point BGR→gray conversion for 8-bit images:
`CV_DESCALE(B*1868 + G*9617 + R*4899, 14)`; the three coefficients sum to
`2^14`, so the result is again in 0–255. -/
def gray (p : Pixel) : Nat :=
  (4899 * p.1 + 9617 * p.2.1 + 1868 * p.2.2 + 8192) / 16384

/-- Grayscale grid of an image (`cv2.imread(path, IMREAD_GRAYSCALE)` /
`cv2.cvtColor(img, COLOR_BGR2GRAY)`), row-major. -/
def grayGrid (img : Image) : List Nat :=
  img.data.map gray

/-- `img_bgr[:, :, 2] = img_bgr[:, :, 2] & 0xFE` — clear the LSB of the red
channel of one pixel. -/
def maskRedPixel (p : Pixel) : Pixel :=
  (2 * (p.1 / 2), p.2.1, p.2.2)

/-- Clear the LSB of the red channel of every pixel (decoder-side mask). -/
def maskRed (img : Image) : Image :=
  { img with data := img.data.map maskRedPixel }

/-- Encoder-side importance map (`ai_encoder.generate_importance_map`):
grayscale of the unmodified source, then the external Sobel+normalise
primitive `edgeNorm`. -/
def encImportanceMap (edgeNorm : List Nat → List Nat) (img : Image) : List Nat :=
  edgeNorm (grayGrid img)

/-- Decoder-side importance map (`ai_decoder`'s inner
`generate_importance_map`): red LSBs cleared first, then grayscale, then the
same external primitive. -/
def decImportanceMap (edgeNorm : List Nat → List Nat) (img : Image) : List Nat :=
  edgeNorm (grayGrid (maskRed img))

/-- A candidate pixel `(x, y, importance)`, exactly the tuples the Python
code builds. -/
abbrev Cand := Nat × Nat × Nat

/-- Row-major enumeration of the pixels whose importance passes the
threshold: `for y ...: for x ...: if importance_map[y, x] >= threshold`. -/
def candidates (m : List Nat) (w h t : Nat) : List Cand :=
  (List.range h).flatMap fun y =>
    (List.range w).filterMap fun x =>
      let imp := m.getD (y * w + x) 0
      if t ≤ imp then some (x, y, imp) else none

/-- The encoder's sort relation: `sort(key=lambda p: p[2], reverse=True)` —
importance descending; a stable sort keeps ties in scan order. -/
def encLe (a b : Cand) : Prop := b.2.2 ≤ a.2.2

instance : DecidableRel encLe := fun a b => inferInstanceAs (Decidable (b.2.2 ≤ a.2.2))

instance : IsTotal Cand encLe := ⟨fun a b => (Nat.le_total a.2.2 b.2.2).symm⟩

instance : IsTrans Cand encLe := ⟨fun _ _ _ hab hbc => Nat.le_trans hbc hab⟩

/-- Numpy `uint8` negation: the importance map is `.astype(np.uint8)`, so
`-p[2]` in the decoder's sort key wraps modulo 256 — `-np.uint8(0) = 0` and
`-np.uint8(v) = 256 - v` for `0 < v < 256`. -/
def negU8 (v : Nat) : Nat :=
  (256 - v % 256) % 256

/-- The decoder's sort relation: `sort(key=lambda p: (-p[2], p[0], p[1]))` —
lexicographic, ascending, on the wrapped key `(-importance mod 256, x, y)`.
For nonzero importances below 256 this is importance descending, but a
zero-importance candidate gets key 0 and sorts *first*. -/
def decLe (a b : Cand) : Prop :=
  negU8 a.2.2 < negU8 b.2.2 ∨
    (negU8 a.2.2 = negU8 b.2.2 ∧ (a.1 < b.1 ∨ (a.1 = b.1 ∧ a.2.1 ≤ b.2.1)))

instance : DecidableRel decLe := fun a b =>
  inferInstanceAs (Decidable (negU8 a.2.2 < negU8 b.2.2 ∨
    (negU8 a.2.2 = negU8 b.2.2 ∧ (a.1 < b.1 ∨ (a.1 = b.1 ∧ a.2.1 ≤ b.2.1)))))

instance : IsTotal Cand decLe := by
  constructor
  intro a b
  unfold decLe
  rcases Nat.lt_trichotomy (negU8 a.2.2) (negU8 b.2.2) with h | h | h
  · exact Or.inl (Or.inl h)
  · rcases Nat.lt_trichotomy a.1 b.1 with h1 | h1 | h1
    · exact Or.inl (Or.inr ⟨h, Or.inl h1⟩)
    · rcases Nat.le_total a.2.1 b.2.1 with h2 | h2
      · exact Or.inl (Or.inr ⟨h, Or.inr ⟨h1, h2⟩⟩)
      · exact Or.inr (Or.inr ⟨h.symm, Or.inr ⟨h1.symm, h2⟩⟩)
    · exact Or.inr (Or.inr ⟨h.symm, Or.inl h1⟩)
  · exact Or.inr (Or.inl h)

instance : IsTrans Cand decLe := by
  constructor
  intro a b c hab hbc
  unfold decLe at *
  rcases hab with hab | ⟨hi1, hab⟩
  · rcases hbc with hbc | ⟨hi2, _⟩
    · exact Or.inl (Nat.lt_trans hab hbc)
    · exact Or.inl (lt_of_lt_of_eq hab hi2)
  · rcases hbc with hbc | ⟨hi2, hbc⟩
    · exact Or.inl (lt_of_eq_of_lt hi1 hbc)
    · refine Or.inr ⟨hi1.trans hi2, ?_⟩
      rcases hab with hab | ⟨hx1, hab⟩
      · rcases hbc with hbc | ⟨hx2, _⟩
        · exact Or.inl (Nat.lt_trans hab hbc)
        · exact Or.inl (hx2 ▸ hab)
      · rcases hbc with hbc | ⟨hx2, hbc⟩
        · exact Or.inl (hx1 ▸ hbc)
        · exact Or.inr ⟨hx1.trans hx2, Nat.le_trans hab hbc⟩

/-- The encoder's candidate ordering: stable sort by importance descending. -/
def encSort (l : List Cand) : List Cand := List.insertionSort encLe l

/-- The decoder's candidate ordering: sort by `(-importance, x, y)`, with
the `uint8` wraparound of the negated importance. -/
def decSort (l : List Cand) : List Cand := List.insertionSort decLe l

/-! ### Bit-level message codec -/

/-- Minimal binary digits of `n`, most significant first (`format(n, 'b')`);
`0` has the single digit `0`. -/
def natBits (n : Nat) : List Bool :=
  if n = 0 then [false] else (natBitsRevFuel n n).reverse
where
  /-- Little-endian digits, with enough fuel (`n` halvings always suffice). -/
  natBitsRevFuel : Nat → Nat → List Bool
    | 0, _ => []
    | f + 1, m => if m = 0 then [] else decide (m % 2 = 1) :: natBitsRevFuel f (m / 2)

/-- `format(n, '08b')`: binary digits of `n` zero-padded on the left to at
least 8 characters (longer when `n ≥ 256`, exactly as in Python). -/
def format08b (n : Nat) : List Bool :=
  let ds := natBits n
  List.replicate (8 - ds.length) false ++ ds

/-- UTF-8 encoding of one character (`str.encode('utf-8')`, per character;
Lean `Char`s are scalar values, exactly the code points Python can encode). -/
def utf8EncodeCharNat (c : Char) : List Nat :=
  let n := c.toNat
  if n < 0x80 then [n]
  else if n < 0x800 then [0xC0 + n / 64, 0x80 + n % 64]
  else if n < 0x10000 then [0xE0 + n / 4096, 0x80 + n / 64 % 64, 0x80 + n % 64]
  else [0xF0 + n / 262144, 0x80 + n / 4096 % 64, 0x80 + n / 64 % 64, 0x80 + n % 64]

/-- `message.encode('utf-8')`. -/
def msgBytes (s : String) : List Nat :=
  s.data.flatMap utf8EncodeCharNat

/-- The terminator the importance-guided **encoder** appends
(`ai_encoder.py` line 136): the 64-character literal
`'1111…10'` — sixty-three `1`s followed by one `0`, i.e. `0xFF`×7 then
`0xFE`.  (The adjacent comment says "8 bytes of 0xFF followed by 0xFE",
which would be 72 bits; the literal is 64.) -/
def encTerminator : List Bool :=
  List.replicate 63 true ++ [false]

/-- The terminator the importance-guided **decoder** scans for
(`ai_decoder.py` lines 50–51): `('1' * 64 + '11111110')[:64]` = 64 ones. -/
def decTerminator : List Bool :=
  (List.replicate 64 true ++ (List.replicate 7 true ++ [false])).take 64

/-- The terminator of the uniform encoders and of the uniform single-channel
decoder: the literal `'11111110'`. -/
def lsbTerminator : List Bool :=
  List.replicate 7 true ++ [false]

/-- The terminator `decode_standard_lsb` stops at: the literal `'00000000'`. -/
def stdTerminator : List Bool :=
  List.replicate 8 false

/-- The framed bitstream of `encode_ai`: UTF-8 bytes of the message, each as
8 bits MSB-first, then the encoder terminator. -/
def aiBitstream (msg : String) : List Bool :=
  (msgBytes msg).flatMap format08b ++ encTerminator

/-- The framed bitstream of the uniform encoders:
`''.join(format(ord(char), '08b') for char in message) + '11111110'`
(code points, not UTF-8 bytes; a code point ≥ 256 yields more than 8 bits). -/
def lsbBitstream (msg : String) : List Bool :=
  (msg.data.flatMap fun c => format08b c.toNat) ++ lsbTerminator

/-- Value of 8 bits read MSB-first (`int(''.join(byte), 2)`). -/
def byteOfBits (bs : List Bool) : Nat :=
  bs.foldl (fun acc b => 2 * acc + (if b then 1 else 0)) 0

/-- Group a bit list into bytes of 8, dropping a trailing incomplete group
(`for i in range(0, len(binary), 8): … if len(byte) == 8`). -/
def bitsToBytes : List Bool → List Nat
  | b0 :: b1 :: b2 :: b3 :: b4 :: b5 :: b6 :: b7 :: rest =>
      byteOfBits [b0, b1, b2, b3, b4, b5, b6, b7] :: bitsToBytes rest
  | _ => []

/-- Is `b` a UTF-8 continuation byte (`0x80–0xBF`)? -/
def isCont (b : Nat) : Prop := 0x80 ≤ b ∧ b ≤ 0xBF

instance : DecidablePred isCont := fun b => inferInstanceAs (Decidable (0x80 ≤ b ∧ b ≤ 0xBF))

/-- Strict UTF-8 decoding (`bytes.decode('utf-8')`): rejects invalid leading
bytes, truncated sequences, overlong encodings, surrogates and code points
above `U+10FFFF`, returning `none` exactly when Python raises
`UnicodeDecodeError`. -/
def utf8Decode : List Nat → Option (List Char)
  | [] => some []
  | b :: rest =>
    if b < 0x80 then
      (utf8Decode rest).map (fun cs => Char.ofNat b :: cs)
    else if b < 0xC2 then none
    else if b ≤ 0xDF then
      match rest with
      | b1 :: r =>
        if isCont b1 then
          (utf8Decode r).map (fun cs => Char.ofNat ((b - 0xC0) * 64 + (b1 - 0x80)) :: cs)
        else none
      | [] => none
    else if b ≤ 0xEF then
      match rest with
      | b1 :: b2 :: r =>
        let lo1 := if b = 0xE0 then 0xA0 else 0x80
        let hi1 := if b = 0xED then 0x9F else 0xBF
        if lo1 ≤ b1 ∧ b1 ≤ hi1 ∧ isCont b2 then
          (utf8Decode r).map (fun cs =>
            Char.ofNat ((b - 0xE0) * 4096 + (b1 - 0x80) * 64 + (b2 - 0x80)) :: cs)
        else none
      | _ => none
    else if b ≤ 0xF4 then
      match rest with
      | b1 :: b2 :: b3 :: r =>
        let lo1 := if b = 0xF0 then 0x90 else 0x80
        let hi1 := if b = 0xF4 then 0x8F else 0xBF
        if lo1 ≤ b1 ∧ b1 ≤ hi1 ∧ isCont b2 ∧ isCont b3 then
          (utf8Decode r).map (fun cs =>
            Char.ofNat ((b - 0xF0) * 262144 + (b1 - 0x80) * 4096 + (b2 - 0x80) * 64 + (b3 - 0x80)) :: cs)
        else none
      | _ => none
    else none

/-- `bytes.decode('latin-1')`: defined on byte values 0–255 (i.e. on every
byte Python can hold), mapping each byte to the code point of the same
value; `none` only on an out-of-range value, which a Python `bytes` object
cannot contain. -/
def latin1DecodeOpt (bs : List Nat) : Option (List Char) :=
  if bs.all (· < 256) then some (bs.map Char.ofNat) else none

/-- The text produced from extracted bytes by `decode_ai`'s inner
`try: utf-8 / except: latin-1` ladder, with the final
`except: return decode_lsb(...)` branch as an explicit fallback value. -/
def decodeBytesWithFallback (bs : List Nat) (fallback : Except Err String) :
    Except Err String :=
  match utf8Decode bs with
  | some cs => .ok (String.mk cs)
  | none =>
    match latin1DecodeOpt bs with
    | some cs => .ok (String.mk cs)
    | none => fallback

/-! ### Channel write/read adapter -/

/-- `r = (r & ~1) | int(bit)`: overwrite the red channel's LSB, leaving the
green and blue channels untouched. -/
def setRedLSB (p : Pixel) (bit : Bool) : Pixel :=
  (2 * (p.1 / 2) + (if bit then 1 else 0), p.2.1, p.2.2)

/-- Sequentially write one bit into the red-channel LSB of one candidate
pixel (`for idx, bit in enumerate(binary_message): … pixels[x, y] = …`);
`pairs` is the zip of the bitstream with the candidate sequence. -/
def writeBits (w : Nat) (data : List Pixel) : List (Bool × Cand) → List Pixel
  | [] => data
  | (bit, (x, y, _)) :: rest =>
      let i := y * w + x
      writeBits w (data.set i (setRedLSB (data.getD i (0, 0, 0)) bit)) rest

/-- Row-major raster-scan candidate sequence of a `w × h` image (the
`for y: for x:` loops of the uniform encoders/decoders); importance is
irrelevant there and set to 0. -/
def rasterCands (w h : Nat) : List Cand :=
  (List.range h).flatMap fun y => (List.range w).map fun x => (x, y, 0)

/-- Whole-image capacity `calculate_max_message_size`
(`(width * height - 8) // 8` with Python floor division, hence `Int.fdiv`:
for tiny images the result is negative). -/
def maxMessageSize (img : Image) : Int :=
  Int.fdiv ((img.width * img.height : Int) - 8) 8

/-! ### Encoders -/

/-- `encode_ai` (importance-guided encoder), after path validation and
backup creation (file I/O): whole-image capacity check, importance map from
the unmodified source, threshold filter in scan order, stable sort by
importance descending, framed bitstream, candidate-count check, then the
red-LSB writes.  Returns the mutated pixel buffer or the raised error. -/
def encode_ai (img : Image) (msg : String) (threshold : Nat)
    (edgeNorm : List Nat → List Nat) : Except Err Image :=
  if (msg.length : Int) > maxMessageSize img then
    .error .messageTooLarge
  else
    let m := encImportanceMap edgeNorm img
    let cands := encSort (candidates m img.width img.height threshold)
    let bits := aiBitstream msg
    if bits.length > cands.length then
      .error .notEnoughPixels
    else
      .ok { img with data := writeBits img.width img.data (bits.zip cands) }

/-- `encode_lsb` (uniform single-channel encoder): whole-image capacity
check, then bits written into red-channel LSBs in raster order. -/
def encode_lsb (img : Image) (msg : String) : Except Err Image :=
  if (msg.length : Int) > maxMessageSize img then
    .error .messageTooLarge
  else
    let bits := lsbBitstream msg
    .ok { img with
          data := writeBits img.width img.data (bits.zip (rasterCands img.width img.height)) }

/-- One pixel's writes in `encode_lsb_multi_channel`: for each enabled
channel in `r`, `g`, `b` order, if bits remain, overwrite that channel's
LSB with the next bit. -/
def writeMultiPixel (useR useG useB : Bool) (p : Pixel) (bits : List Bool) :
    Pixel × List Bool :=
  let (r, rest) :=
    match useR, bits with
    | true, bit :: bs => (2 * (p.1 / 2) + (if bit then 1 else 0), bs)
    | _, _ => (p.1, bits)
  let (g, rest) :=
    match useG, rest with
    | true, bit :: bs => (2 * (p.2.1 / 2) + (if bit then 1 else 0), bs)
    | _, _ => (p.2.1, rest)
  let (b, rest) :=
    match useB, rest with
    | true, bit :: bs => (2 * (p.2.2 / 2) + (if bit then 1 else 0), bs)
    | _, _ => (p.2.2, rest)
  ((r, g, b), rest)

/-- The raster loop of `encode_lsb_multi_channel`: pixels in row-major
order; once the bitstream is exhausted the remaining pixels are untouched
(the `else: break`). -/
def writeMulti (useR useG useB : Bool) : List Pixel → List Bool → List Pixel
  | [], _ => []
  | ps, [] => ps
  | p :: ps, bits =>
      let (p', rest) := writeMultiPixel useR useG useB p bits
      p' :: writeMulti useR useG useB ps rest

/-- `encode_lsb_multi_channel`: capacity is the whole-image single-channel
capacity times the enabled-channel count; bits are distributed round-robin
over the enabled channels of each raster pixel. -/
def encode_lsb_multi_channel (img : Image) (msg : String)
    (useR useG useB : Bool) : Except Err Image :=
  let channelCount : Int :=
    (if useR then 1 else 0) + (if useG then 1 else 0) + (if useB then 1 else 0)
  if (msg.length : Int) > maxMessageSize img * channelCount then
    .error .messageTooLarge
  else
    .ok { img with data := writeMulti useR useG useB img.data (lsbBitstream msg) }

/-! ### Decoders -/

/-- The last `n` bits of an accumulator (`binary[-n:]`). -/
def lastN (n : Nat) (l : List Bool) : List Bool :=
  l.drop (l.length - n)

/-- `r & 1` of the candidate's pixel: the bit the decoders read. -/
def readBit (img : Image) (c : Cand) : Bool :=
  decide ((img.data.getD (c.2.1 * img.width + c.1) (0, 0, 0)).1 % 2 = 1)

/-- The importance-guided bit-extraction loop of `decode_ai`: read the
red-channel LSB of each sorted candidate in turn; after every bit, if at
least 64 bits have been collected and the last 64 equal the decoder
terminator, delete them and break.  The second component records whether
the terminator was found (`true`) or the candidates ran out (`false`) —
the Python code does not distinguish the two cases. -/
def extractScan (img : Image) : List Cand → List Bool → List Bool × Bool
  | [], acc => (acc, false)
  | c :: rest, acc =>
      let acc' := acc ++ [readBit img c]
      if 64 ≤ acc'.length ∧ lastN 64 acc' = decTerminator then
        (acc'.take (acc'.length - 64), true)
      else
        extractScan img rest acc'

/-- `chr(int(char, 2))` over the full bytes of a bit list: the text the
uniform decoders build. -/
def chrText (bits : List Bool) : String :=
  String.mk ((bitsToBytes bits).map Char.ofNat)

/-- The raster extraction loop of `decode_lsb`: one red-channel LSB per
pixel; after every bit, when the length is a positive multiple of 8 and the
last 8 bits are `11111110`, drop them and stop. -/
def lsbScan (img : Image) : List Cand → List Bool → List Bool
  | [], acc => acc
  | (x, y, _) :: rest, acc =>
      let r := (img.data.getD (y * img.width + x) (0, 0, 0)).1
      let acc' := acc ++ [decide (r % 2 = 1)]
      if acc'.length % 8 = 0 ∧ 8 ≤ acc'.length ∧ lastN 8 acc' = lsbTerminator then
        acc'.take (acc'.length - 8)
      else
        lsbScan img rest acc'

/-- `decode_lsb` (uniform single-channel decoder).  On a failed load the
Python function's own `except` re-raises, so the caller sees the error. -/
def decode_lsb (imgLoad : Option Image) : Except Err String :=
  match imgLoad with
  | none => .error .loadError
  | some img =>
      let bits := lsbScan img (rasterCands img.width img.height) []
      let message := chrText bits
      if message = "" then .ok "" else .ok message

/-- The raster extraction loop of `decode_standard_lsb`: the red, green and
blue LSBs of each pixel are appended, and only then — once per pixel — is
the all-zero-byte terminator test made (so it only fires when `3 * pixels`
is a multiple of 8). -/
def stdScan (img : Image) : List Cand → List Bool → List Bool
  | [], acc => acc
  | (x, y, _) :: rest, acc =>
      let p := img.data.getD (y * img.width + x) (0, 0, 0)
      let acc' := acc ++ [decide (p.1 % 2 = 1), decide (p.2.1 % 2 = 1), decide (p.2.2 % 2 = 1)]
      if acc'.length % 8 = 0 ∧ 8 ≤ acc'.length ∧ lastN 8 acc' = stdTerminator then
        acc'.take (acc'.length - 8)
      else
        stdScan img rest acc'

/-- `decode_standard_lsb` (uniform multi-channel decoder; reachable only
from `detect_encoding_format`, never from `decode_ai`). -/
def decode_standard_lsb (imgLoad : Option Image) : Except Err String :=
  match imgLoad with
  | none => .error .loadError
  | some img =>
      .ok (chrText (stdScan img (rasterCands img.width img.height) []))

/-- The bits `decode_ai` extracts from a loaded image. -/
def aiExtractedBits (img : Image) (threshold : Nat)
    (edgeNorm : List Nat → List Nat) : List Bool :=
  let m := decImportanceMap edgeNorm img
  (extractScan img (decSort (candidates m img.width img.height threshold)) []).1

/-- `decode_ai`: on a load/validation failure the outer `except` falls back
to `decode_lsb`, which re-raises; on a loaded image it extracts bits from
the sorted candidates and decodes them as UTF-8, then Latin-1, with
`decode_lsb` as the (unreachable) inner fallback. -/
def decode_ai (imgLoad : Option Image) (threshold : Nat)
    (edgeNorm : List Nat → List Nat) : Except Err String :=
  match imgLoad with
  | none => decode_lsb none
  | some img =>
      decodeBytesWithFallback (bitsToBytes (aiExtractedBits img threshold edgeNorm))
        (decode_lsb (some img))

/-! ### Derived notions used in the statements -/

/-- The text `decode_ai` builds from a byte list when no error interrupts:
strict UTF-8 if it succeeds, else Latin-1. -/
def textOfBytes (bs : List Nat) : String :=
  match utf8Decode bs with
  | some cs => String.mk cs
  | none => String.mk (bs.map Char.ofNat)

/-- The flat buffer index of a candidate pixel (`pixels[x, y]` lives at
`y * width + x`). -/
def candIdx (w : Nat) (c : Cand) : Nat :=
  c.2.1 * w + c.1

instance {ε α : Type} [DecidableEq ε] [DecidableEq α] : DecidableEq (Except ε α) := fun a b =>
  match a, b with
  | .ok x, .ok y => decidable_of_iff (x = y) (by simp)
  | .error x, .error y => decidable_of_iff (x = y) (by simp)
  | .ok _, .error _ => isFalse (by simp)
  | .error _, .ok _ => isFalse (by simp)

/-! ### Concrete inputs used by counterexamples and witnesses

`constMap n v` is an admissible stand-in for the external Sobel+normalise
primitive: the claims under test quantify over every image, so they must in
particular hold when the edge filter assigns these scores. -/

/-- An edge-filter stand-in returning a constant `w*h`-entry grid. -/
def constMap (n v : Nat) : List Nat → List Nat := fun _ => List.replicate n v

/-- A 64×1 all-black image. -/
def img64 : Image := ⟨64, 1, List.replicate 64 (0, 0, 0)⟩

/-- The stego image `encode_ai img64 "" 100 (constMap 64 128)` produces:
the 64 terminator bits written into the red LSBs in scan order. -/
def stego64 : Image := ⟨64, 1, List.replicate 63 (1, 0, 0) ++ [(0, 0, 0)]⟩

/-- A 16×1 all-black image. -/
def img16 : Image := ⟨16, 1, List.replicate 16 (0, 0, 0)⟩

/-- The stego image `encode_lsb_multi_channel img16 "A" r g b` produces. -/
def stego16 : Image :=
  ⟨16, 1, [(0, 1, 0), (0, 0, 0), (0, 1, 1), (1, 1, 1), (1, 1, 1)] ++ List.replicate 11 (0, 0, 0)⟩

/-- The stego image `encode_lsb img16 "A"` produces: the 16 framed bits in
the red LSBs of the 16 raster pixels. -/
def lsbStego16 : Image :=
  ⟨16, 1, [(0, 0, 0), (1, 0, 0), (0, 0, 0), (0, 0, 0), (0, 0, 0), (0, 0, 0), (0, 0, 0), (1, 0, 0),
           (1, 0, 0), (1, 0, 0), (1, 0, 0), (1, 0, 0), (1, 0, 0), (1, 0, 0), (1, 0, 0), (0, 0, 0)]⟩

/-- An 8×1 image whose red LSBs spell `01000001` (the byte of `'A'`). -/
def img8A : Image :=
  ⟨8, 1, [(0, 0, 0), (1, 0, 0), (0, 0, 0), (0, 0, 0), (0, 0, 0), (0, 0, 0), (0, 0, 0), (1, 0, 0)]⟩

/-- A 4×4 all-black image (16 pixels, whole-image capacity 1 character). -/
def img4x4 : Image := ⟨4, 4, List.replicate 16 (0, 0, 0)⟩

/-- A 2×2 importance map with all four scores equal (tie on every pair). -/
def tieMap : List Nat := [200, 200, 200, 200]

/-- A 2×2 importance map with pairwise-distinct scores. -/
def distinctMap : List Nat := [10, 200, 30, 40]

/-- A 2×1 importance map with pairwise-distinct scores, one of them zero
(as `NORM_MINMAX` guarantees for any non-constant map). -/
def zeroMap : List Nat := [0, 200]

/-- A 1×1 image whose single red value is odd (9): clearing the red LSB
changes the OpenCV grayscale value (from 3 to 2). -/
def orig9 : Image := ⟨1, 1, [(9, 0, 0)]⟩

/-- `orig9` after the write adapter stores the payload bit `1` in its red
LSB — the stored bit equals the original LSB, so the buffer is unchanged,
yet the decode-side mask still alters the grayscale. -/
def stego9 : Image := ⟨1, 1, writeBits 1 [(9, 0, 0)] [(true, (0, 0, 255))]⟩

/-- A 1×1 image with an even red value. -/
def orig2 : Image := ⟨1, 1, [(2, 5, 7)]⟩

/-- `orig2` with the payload bit `1` stored in its red LSB. -/
def stego3 : Image := ⟨1, 1, [(3, 5, 7)]⟩

/-! ### Helper lemmas -/

/-- `byteOfBits` folded from `acc` stays below `(acc + 1) * 2 ^ length`. -/
theorem byteOfBits_foldl_lt (bs : List Bool) :
    ∀ acc : Nat, bs.foldl (fun a b => 2 * a + (if b then 1 else 0)) acc < (acc + 1) * 2 ^ bs.length := by
  induction bs with
  | nil => intro acc; simp
  | cons b bs ih =>
    intro acc
    have h1 := ih (2 * acc + (if b then 1 else 0))
    have h2 : (2 * acc + (if b then 1 else 0) + 1) * 2 ^ bs.length ≤ (acc + 1) * 2 ^ (bs.length + 1) := by
      have hb : (if b then 1 else 0) ≤ 1 := by cases b <;> simp
      have : 2 * acc + (if b then 1 else 0) + 1 ≤ (acc + 1) * 2 := by omega
      calc (2 * acc + (if b then 1 else 0) + 1) * 2 ^ bs.length
              ≤ ((acc + 1) * 2) * 2 ^ bs.length := Nat.mul_le_mul_right _ this
          _ = (acc + 1) * 2 ^ (bs.length + 1) := by ring
    exact Nat.lt_of_lt_of_le h1 (by simpa [List.foldl] using h2)

/-- 8 bits always assemble into a byte value below 256. -/
theorem byteOfBits_lt8 (b0 b1 b2 b3 b4 b5 b6 b7 : Bool) :
    byteOfBits [b0, b1, b2, b3, b4, b5, b6, b7] < 256 := by
  have h := byteOfBits_foldl_lt [b0, b1, b2, b3, b4, b5, b6, b7] 0
  norm_num at h
  simpa [byteOfBits] using h

/-- A bit list shorter than one full byte yields no bytes. -/
theorem bitsToBytes_short (l : List Bool)
    (h1 : ∀ (b0 b1 b2 b3 b4 b5 b6 b7 : Bool) (rest : List Bool),
      l = b0 :: b1 :: b2 :: b3 :: b4 :: b5 :: b6 :: b7 :: rest → False) :
    bitsToBytes l = [] := by
  rcases l with _ | ⟨a0, _ | ⟨a1, _ | ⟨a2, _ | ⟨a3, _ | ⟨a4, _ | ⟨a5, _ | ⟨a6, _ | ⟨a7, rest⟩⟩⟩⟩⟩⟩⟩⟩
  · rfl
  · rfl
  · rfl
  · rfl
  · rfl
  · rfl
  · rfl
  · rfl
  · exact (h1 a0 a1 a2 a3 a4 a5 a6 a7 rest rfl).elim

/-- Every full byte assembled from 8 bits is below 256. -/
theorem bitsToBytes_lt (bits : List Bool) : ∀ v ∈ bitsToBytes bits, v < 256 := by
  induction bits using bitsToBytes.induct with
  | case1 b0 b1 b2 b3 b4 b5 b6 b7 rest ih =>
    intro v hv
    rw [bitsToBytes] at hv
    rcases List.mem_cons.mp hv with h | h
    · subst h
      exact byteOfBits_lt8 ..
    · exact ih v h
  | case2 l h1 =>
    intro v hv
    rw [bitsToBytes_short l h1] at hv
    simp at hv

/-- When every byte is below 256 the Latin-1 fallback succeeds, so the
inner `decode_lsb` fallback of `decode_ai` is never consulted. -/
theorem decodeBytesWithFallback_eq (bs : List Nat) (hlt : ∀ v ∈ bs, v < 256)
    (fb : Except Err String) :
    decodeBytesWithFallback bs fb = .ok (textOfBytes bs) := by
  unfold decodeBytesWithFallback textOfBytes
  cases h : utf8Decode bs with
  | some cs => rfl
  | none =>
    have : latin1DecodeOpt bs = some (bs.map Char.ofNat) := by
      unfold latin1DecodeOpt
      rw [if_pos]
      exact List.all_eq_true.mpr fun v hv => decide_eq_true (hlt v hv)
    rw [this]

/-- On every loaded image `decode_ai` returns the importance-guided
strategy's text: extracted bits, grouped into bytes, decoded as UTF-8 or
else Latin-1.  No fallback strategy is ever reached. -/
theorem decodeAi_some_eq (img : Image) (t : Nat) (e : List Nat → List Nat) :
    decode_ai (some img) t e = .ok (textOfBytes (bitsToBytes (aiExtractedBits img t e))) := by
  unfold decode_ai
  exact decodeBytesWithFallback_eq _ (bitsToBytes_lt _) _

/-- If the extraction loop never sees the 64-ones window, it returns every
candidate's red LSB, in candidate order, with no truncation. -/
theorem extractScan_not_found (img : Image) :
    ∀ (cs : List Cand) (acc : List Bool), (extractScan img cs acc).2 = false →
      (extractScan img cs acc).1 = acc ++ cs.map (readBit img) := by
  intro cs
  induction cs with
  | nil => intro acc _; simp [extractScan]
  | cons c rest ih =>
    intro acc hf
    rw [extractScan] at hf ⊢
    by_cases hc : 64 ≤ (acc ++ [readBit img c]).length ∧ lastN 64 (acc ++ [readBit img c]) = decTerminator
    · rw [if_pos hc] at hf
      simp at hf
    · rw [if_neg hc] at hf ⊢
      rw [ih _ hf]
      simp

/-- The write adapter never changes the buffer length. -/
theorem writeBits_length (w : Nat) (pairs : List (Bool × Cand)) :
    ∀ data : List Pixel, (writeBits w data pairs).length = data.length := by
  induction pairs with
  | nil => intro data; rfl
  | cons pr rest ih =>
    intro data
    obtain ⟨bit, x, y, i⟩ := pr
    rw [writeBits, ih]
    exact List.length_set ..

/-- A single red-LSB write preserves the pixel's green and blue channels
and the red channel's high bits, at every buffer position. -/
theorem getD_set_channels (data : List Pixel) (i j : Nat) (bit : Bool) (d : Pixel) :
    ((data.set i (setRedLSB (data.getD i (0, 0, 0)) bit)).getD j d).2 = (data.getD j d).2 ∧
    ((data.set i (setRedLSB (data.getD i (0, 0, 0)) bit)).getD j d).1 / 2 = (data.getD j d).1 / 2 := by
  by_cases hij : i = j
  · subst hij
    simp only [List.getD_eq_getElem?_getD, List.getElem?_set_self']
    cases h : data[i]? with
    | none => exact ⟨rfl, rfl⟩
    | some p =>
      refine ⟨rfl, ?_⟩
      show (2 * (p.1 / 2) + if bit then 1 else 0) / 2 = p.1 / 2
      rw [Nat.mul_add_div (show 0 < 2 by norm_num)]
      cases bit <;> simp
  · simp [List.getD_eq_getElem?_getD, List.getElem?_set_ne hij]

/-- The write adapter preserves every pixel's green and blue channels and
every red channel's high bits (`r / 2`). -/
theorem writeBits_channels (w : Nat) (pairs : List (Bool × Cand)) :
    ∀ (data : List Pixel) (j : Nat) (d : Pixel),
      ((writeBits w data pairs).getD j d).2 = (data.getD j d).2 ∧
      ((writeBits w data pairs).getD j d).1 / 2 = (data.getD j d).1 / 2 := by
  induction pairs with
  | nil => intro data j d; exact ⟨rfl, rfl⟩
  | cons pr rest ih =>
    intro data j d
    obtain ⟨bit, x, y, i⟩ := pr
    rw [writeBits]
    have h1 := ih (data.set (y * w + x) (setRedLSB (data.getD (y * w + x) (0, 0, 0)) bit)) j d
    have h2 := getD_set_channels data (y * w + x) j bit d
    exact ⟨h1.1.trans h2.1, h1.2.trans h2.2⟩

/-- Pixels whose buffer index is hit by none of the writes are unchanged. -/
theorem writeBits_frame (w : Nat) (pairs : List (Bool × Cand)) :
    ∀ (data : List Pixel) (j : Nat) (d : Pixel),
      (∀ pr ∈ pairs, candIdx w pr.2 ≠ j) →
      (writeBits w data pairs).getD j d = data.getD j d := by
  induction pairs with
  | nil => intro data j d _; rfl
  | cons pr rest ih =>
    intro data j d hj
    obtain ⟨bit, x, y, i⟩ := pr
    rw [writeBits]
    have hne : y * w + x ≠ j := hj (bit, x, y, i) (List.mem_cons_self ..)
    rw [ih _ j d fun q hq => hj q (List.mem_cons_of_mem _ hq)]
    simp only [List.getD_eq_getElem?_getD]
    rw [List.getElem?_set_ne hne]

/-- The second components of `l₁.zip l₂` all lie in the first `l₁.length`
entries of `l₂`. -/
theorem zip_snd_mem_take {α β : Type} :
    ∀ (l₁ : List α) (l₂ : List β) (pr : α × β), pr ∈ l₁.zip l₂ → pr.2 ∈ l₂.take l₁.length
  | [], _, _, h => by simp [List.zip] at h
  | _ :: _, [], _, h => by simp [List.zip] at h
  | a :: l₁, b :: l₂, pr, h => by
    rw [List.zip_cons_cons] at h
    rcases List.mem_cons.mp h with h | h
    · subst h
      exact List.mem_cons_self ..
    · exact List.mem_cons_of_mem _ (zip_snd_mem_take l₁ l₂ pr h)

/-- Two permutations of the same candidates, both sorted by importance
descending, coincide when the importance scores are pairwise distinct. -/
theorem eq_of_perm_sorted_nodup :
    ∀ (l₁ l₂ : List Cand), l₁.Perm l₂ → List.Sorted encLe l₁ → List.Sorted encLe l₂ →
      (l₁.map fun c => c.2.2).Nodup → l₁ = l₂ := by
  intro l₁
  induction l₁ with
  | nil => intro l₂ hp _ _ _; exact (hp.symm.eq_nil).symm ▸ rfl
  | cons a t₁ ih =>
    intro l₂ hp h₁ h₂ hnd
    cases l₂ with
    | nil => exact absurd hp.eq_nil (by simp)
    | cons b t₂ =>
      by_cases hab : a = b
      · subst hab
        rw [ih t₂ hp.cons_inv h₁.of_cons h₂.of_cons (List.nodup_cons.mp (by simpa using hnd)).2]
      · exfalso
        have ha2 : a ∈ t₂ := by
          rcases List.mem_cons.mp (hp.subset (List.mem_cons_self a t₁)) with h | h
          · exact absurd h hab
          · exact h
        have hb1 : b ∈ t₁ := by
          rcases List.mem_cons.mp (hp.symm.subset (List.mem_cons_self b t₂)) with h | h
          · exact absurd h.symm hab
          · exact h
        have hle1 : encLe b a := List.rel_of_sorted_cons h₂ a ha2
        have hle2 : encLe a b := List.rel_of_sorted_cons h₁ b hb1
        have heq : b.2.2 = a.2.2 := Nat.le_antisymm hle2 hle1
        have : a.2.2 ∈ t₁.map fun c => c.2.2 :=
          List.mem_map.mpr ⟨b, hb1, heq⟩
        exact (List.nodup_cons.mp (by simpa using hnd)).1 this

/-- Within the `uint8` range, nonzero importances negate without wrapping. -/
theorem negU8_eq (v : Nat) (h1 : 1 ≤ v) (h2 : v < 256) : negU8 v = 256 - v := by
  unfold negU8
  rw [Nat.mod_eq_of_lt h2, Nat.mod_eq_of_lt (by omega)]

/-- A candidate's score passed the threshold and is the map entry at the
candidate's own coordinates. -/
theorem mem_candidates (m : List Nat) (w h t : Nat) (c : Cand)
    (hc : c ∈ candidates m w h t) :
    t ≤ c.2.2 ∧ c.2.2 = m.getD (c.2.1 * w + c.1) 0 := by
  simp only [candidates] at hc
  rcases List.mem_flatMap.mp hc with ⟨y, _, hx⟩
  rcases List.mem_filterMap.mp hx with ⟨x, _, hsome⟩
  by_cases hle : t ≤ m.getD (y * w + x) 0
  · rw [if_pos hle] at hsome
    cases hsome
    exact ⟨hle, rfl⟩
  · rw [if_neg hle] at hsome
    exact Option.noConfusion hsome

/-- At a positive threshold over a `uint8`-valued map, every candidate
score lies in `1..255`. -/
theorem candidates_score_range (m : List Nat) (w h t : Nat)
    (hm : ∀ v ∈ m, v < 256) (ht : 1 ≤ t) (c : Cand) (hc : c ∈ candidates m w h t) :
    1 ≤ c.2.2 ∧ c.2.2 < 256 := by
  obtain ⟨hle, heq⟩ := mem_candidates m w h t c hc
  refine ⟨Nat.le_trans ht hle, ?_⟩
  by_cases hlt : c.2.1 * w + c.1 < m.length
  · have hmem : m.getD (c.2.1 * w + c.1) 0 ∈ m := by
      rw [List.getD_eq_getElem?_getD, List.getElem?_eq_getElem hlt]
      exact List.getElem_mem hlt
    rw [heq]
    exact hm _ hmem
  · have h0 : m.getD (c.2.1 * w + c.1) 0 = 0 := by
      rw [List.getD_eq_getElem?_getD, List.getElem?_eq_none (Nat.le_of_not_lt hlt)]
      rfl
    rw [h0] at heq
    omega

/-- Frame conditions of one writeBits pass over a zipped bitstream:
length preserved; green/blue and red-high-bits preserved everywhere; and
any index hit by none of the first `bits.length` candidates is untouched. -/
theorem frame_of_writeBits (w : Nat) (data : List Pixel) (bits : List Bool)
    (cands : List Cand) :
    (writeBits w data (bits.zip cands)).length = data.length ∧
    ∀ (j : Nat) (d : Pixel),
      ((writeBits w data (bits.zip cands)).getD j d).2 = (data.getD j d).2 ∧
      ((writeBits w data (bits.zip cands)).getD j d).1 / 2 = (data.getD j d).1 / 2 ∧
      (j ∉ (cands.take bits.length).map (candIdx w) →
        (writeBits w data (bits.zip cands)).getD j d = data.getD j d) := by
  refine ⟨writeBits_length w _ data, fun j d => ?_⟩
  refine ⟨(writeBits_channels w _ data j d).1, (writeBits_channels w _ data j d).2, fun hj => ?_⟩
  refine writeBits_frame w _ data j d fun pr hpr heq => ?_
  exact hj (List.mem_map.mpr ⟨pr.2, zip_snd_mem_take bits cands pr hpr, heq⟩)

/-! ### Claims -/

/-- Claim C1 (code bug).  The spec's round-trip property — decoding an
encoded image at the same threshold returns the original message — fails on
the code: the encoder appends the 64-bit terminator `0xFF`×7 + `0xFE`
(63 ones, one zero) while the decoder scans for 64 consecutive ones, which
therefore never occur.  At the failing input — a 64×1 black image, the
empty message, threshold 100, a constant edge map (so encoder and decoder
even agree on the candidate order) — the encode succeeds, and the decode
returns the Latin-1 rendering of the terminator bytes, `"ÿÿÿÿÿÿÿþ"`,
instead of the encoded `""`. -/
theorem c1_roundtrip_fails :
    encode_ai img64 "" 100 (constMap 64 128) = .ok stego64 ∧
    decode_ai (some stego64) 100 (constMap 64 128) = .ok "ÿÿÿÿÿÿÿþ" ∧
    ("ÿÿÿÿÿÿÿþ" : String) ≠ "" :=
  ⟨by decide, by decide, by decide⟩

/-- Claim C2, counterexample.  The terminator the importance-guided
encoder appends is not 64 ones, and the stop pattern of the uniform
single-channel decoder (`decode_lsb`) is not 8 zeros (it is `11111110`). -/
theorem c2_counterexample :
    encTerminator ≠ List.replicate 64 true ∧ lsbTerminator ≠ List.replicate 8 false :=
  ⟨by decide, by decide⟩

/-- Claim C2, amended.  The exact terminator patterns of the four code
paths: the importance-guided encoder appends 63 ones then a zero
(`0xFF`×7 + `0xFE`); the importance-guided decoder scans for 64 ones; the
uniform encoders append, and the uniform single-channel decoder stops at,
`11111110`; the uniform multi-channel decoder (`decode_standard_lsb`)
stops at 8 zeros. -/
theorem c2_terminator_patterns :
    aiBitstream "" = List.replicate 63 true ++ [false] ∧
    decTerminator = List.replicate 64 true ∧
    lsbBitstream "" = List.replicate 7 true ++ [false] ∧
    stdTerminator = List.replicate 8 false :=
  ⟨by decide, by decide, by decide, by decide⟩

/-- Claim C5, counterexample.  The decoder's importance map does not equal
the encoder's: the encoder computes grayscale from the unmodified source
(red LSBs intact) while the decoder clears red LSBs first, and clearing an
odd red value changes the OpenCV grayscale output.  `stego9` is `orig9`
with the payload bit 1 written into its red LSB (the buffer is unchanged,
since the original LSB was already 1), and with the identity as the
external edge filter the two maps differ (`[2] ≠ [3]`). -/
theorem c5_counterexample :
    stego9.data.map maskRedPixel = orig9.data.map maskRedPixel ∧
    decImportanceMap id stego9 ≠ encImportanceMap id orig9 :=
  ⟨by decide, by decide⟩

/-- Claim C5, amended.  For any stego image that differs from the original
only in red-channel LSBs, the decoder's importance map equals the edge
filter applied to the grayscale of the *red-LSB-cleared* original — and it
equals the encoder's map precisely when that clearing does not change the
original's grayscale (e.g. when every red value is even). -/
theorem c5_decoder_map (e : List Nat → List Nat) (orig stego : Image)
    (h : stego.data.map maskRedPixel = orig.data.map maskRedPixel) :
    decImportanceMap e stego = e ((orig.data.map maskRedPixel).map gray) ∧
    ((orig.data.map maskRedPixel).map gray = orig.data.map gray →
      decImportanceMap e stego = encImportanceMap e orig) := by
  have h1 : decImportanceMap e stego = e ((stego.data.map maskRedPixel).map gray) := rfl
  constructor
  · rw [h1, h]
  · intro h2
    rw [h1, h, h2]
    rfl

/-- Witness for the amended C5: a 1×1 image with an even red value,
its red LSB then overwritten with the payload bit 1. -/
theorem c5_witness :
    stego3.data.map maskRedPixel = orig2.data.map maskRedPixel ∧
    decImportanceMap id stego3 = encImportanceMap id orig2 :=
  ⟨by decide, (c5_decoder_map id orig2 stego3 (by decide)).2 (by decide)⟩

/-- Claim C6, counterexample.  On an 8×1 image whose red LSBs spell the
byte of `'A'`, the 64-ones terminator never occurs and the candidates are
exhausted — yet `decode_ai` does not fail with any error: it returns the
text decoded from the unterminated bits (`"A"`). -/
theorem c6_counterexample :
    (extractScan img8A
      (decSort (candidates (decImportanceMap (constMap 8 128) img8A) 8 1 100)) []).2 = false ∧
    decode_ai (some img8A) 100 (constMap 8 128) = .ok "A" :=
  ⟨by decide, by decide⟩

/-- Claim C6, amended.  When the bit-extraction loop exhausts the
candidates without ever matching the 64-ones terminator, `decode_ai` does
not fail: it returns the text decoded (UTF-8, else Latin-1) from *all* the
candidate red LSBs, unterminated. -/
theorem c6_no_terminator_returns_text (img : Image) (t : Nat) (e : List Nat → List Nat)
    (h : (extractScan img
      (decSort (candidates (decImportanceMap e img) img.width img.height t)) []).2 = false) :
    decode_ai (some img) t e =
      .ok (textOfBytes (bitsToBytes
        ((decSort (candidates (decImportanceMap e img) img.width img.height t)).map
          (readBit img)))) := by
  have hbits : aiExtractedBits img t e =
      (decSort (candidates (decImportanceMap e img) img.width img.height t)).map
        (readBit img) := by
    unfold aiExtractedBits
    simpa using extractScan_not_found img _ [] h
  rw [decodeAi_some_eq, hbits]

/-- Witness for the amended C6, at the terminator-free 8×1 image. -/
theorem c6_witness :
    (extractScan img8A
      (decSort (candidates (decImportanceMap (constMap 8 128) img8A) 8 1 100)) []).2 = false ∧
    decode_ai (some img8A) 100 (constMap 8 128) =
      .ok (textOfBytes (bitsToBytes
        ((decSort (candidates (decImportanceMap (constMap 8 128) img8A) 8 1 100)).map
          (readBit img8A)))) :=
  ⟨by decide, c6_no_terminator_returns_text img8A 100 (constMap 8 128) (by decide)⟩

/-- Claim C7, counterexample.  `decode_ai` does not always return a string:
when loading/validation fails, the outer `except` falls back to
`decode_lsb`, whose own `except` re-raises, so the error propagates to the
caller instead of an empty string being returned. -/
theorem c7_counterexample :
    decode_ai none 100 id = .error .loadError :=
  rfl

/-- Claim C7, amended.  `decode_ai` returns a string for every image that
loads; when the image cannot be loaded or validated the error propagates
(via `decode_lsb`'s re-raise) rather than an empty string being returned. -/
theorem c7_decode_total_on_loaded (img : Image) (t : Nat) (e : List Nat → List Nat) :
    (∃ s, decode_ai (some img) t e = .ok s) ∧
    decode_ai none t e = .error .loadError :=
  ⟨⟨_, decodeAi_some_eq img t e⟩, rfl⟩

/-- Claim C8, counterexample.  An image produced by the uniform
multi-channel encoder is not decoded back to its message by `decode_ai`:
with every pixel above threshold and a 16×1 image (so candidate order is
raster order on both sides), `decode_ai` returns the importance-guided
strategy's text `"\x18\x00"`, not `"A"`; and even `decode_standard_lsb`
(which `decode_ai` never calls) returns `"Aþ"`, not `"A"`, because it
stops at an all-zero byte while the encoder terminates with `11111110`. -/
theorem c8_counterexample :
    encode_lsb_multi_channel img16 "A" true true true = .ok stego16 ∧
    decode_ai (some stego16) 100 (constMap 16 255) ≠ .ok "A" ∧
    decode_standard_lsb (some stego16) ≠ .ok "A" :=
  ⟨by decide, by decide, by decide⟩

/-- Claim C8, amended.  `decode_ai` has no uniform multi-channel fallback:
for every loaded image it returns exactly the importance-guided strategy's
text (UTF-8, else Latin-1, of the extracted bytes), so images produced by
`encode_lsb_multi_channel` are not, in general, recovered. -/
theorem c8_no_multichannel_fallback (img : Image) (t : Nat) (e : List Nat → List Nat) :
    decode_ai (some img) t e = .ok (textOfBytes (bitsToBytes (aiExtractedBits img t e))) :=
  decodeAi_some_eq img t e

/-- Claim C10 (confirmed).  Bit extraction always produces bytes below
256, Latin-1 decoding succeeds on all of them, and therefore the inner
`except`-fallback to `decode_lsb` after a Latin-1 failure is unreachable:
whatever that fallback would return, `decode_ai`'s text-decoding step
returns the UTF-8 decoding of the extracted bytes when it is valid and the
Latin-1 decoding otherwise. -/
theorem c10_latin1_fallback_unreachable (bits : List Bool) (fb : Except Err String) :
    decodeBytesWithFallback (bitsToBytes bits) fb = .ok (textOfBytes (bitsToBytes bits)) :=
  decodeBytesWithFallback_eq _ (bitsToBytes_lt _) fb

/-- Claim C3, counterexample.  The claim's universal half is false of the
code: the decoder's sort key `-p[2]` negates a numpy `uint8`, which wraps
modulo 256, so a zero-importance candidate (reachable at threshold 0, and
`NORM_MINMAX` gives any non-constant map a zero score) receives key 0 and
sorts *first* in the decoder while the encoder sorts it *last*.  On the
2×1 map `[0, 200]` at threshold 0 the candidate scores are pairwise
distinct, yet the encoder's and decoder's candidate sequences differ. -/
theorem c3_counterexample :
    ((candidates zeroMap 2 1 0).map fun c => c.2.2).Nodup ∧
    encSort (candidates zeroMap 2 1 0) ≠ decSort (candidates zeroMap 2 1 0) :=
  ⟨by decide, by decide⟩

/-- Claim C3, amended.  The encoder stably sorts by importance descending;
the decoder sorts by the wrapped key `(-importance mod 256, x, y)`.  Over
a `uint8`-valued map and any positive threshold, pairwise-distinct scores
make the two candidate sequences equal; at threshold 0, a map with a
zero-score candidate makes them differ even with pairwise-distinct
scores; and a map with two equal-score candidates also makes them
differ. -/
theorem c3_candidate_orders :
    (∀ (m : List Nat) (w h t : Nat), (∀ v ∈ m, v < 256) → 1 ≤ t →
      ((candidates m w h t).map fun c => c.2.2).Nodup →
      encSort (candidates m w h t) = decSort (candidates m w h t)) ∧
    (∃ (m : List Nat) (w h : Nat) (c₀ : Cand),
      c₀ ∈ candidates m w h 0 ∧ c₀.2.2 = 0 ∧
      ((candidates m w h 0).map fun c => c.2.2).Nodup ∧
      encSort (candidates m w h 0) ≠ decSort (candidates m w h 0)) ∧
    (∃ (m : List Nat) (w h t : Nat) (c₁ c₂ : Cand),
      c₁ ∈ candidates m w h t ∧ c₂ ∈ candidates m w h t ∧ c₁ ≠ c₂ ∧ c₁.2.2 = c₂.2.2 ∧
      encSort (candidates m w h t) ≠ decSort (candidates m w h t)) := by
  refine ⟨?_, ?_, ?_⟩
  · intro m w h t hm ht hnd
    apply eq_of_perm_sorted_nodup
    · exact (List.perm_insertionSort encLe _).trans (List.perm_insertionSort decLe _).symm
    · exact List.sorted_insertionSort encLe _
    · refine List.Pairwise.imp_of_mem ?_ (List.sorted_insertionSort decLe _)
      intro a b ha hb hab
      have ha' := candidates_score_range m w h t hm ht a ((List.mem_insertionSort decLe).mp ha)
      have hb' := candidates_score_range m w h t hm ht b ((List.mem_insertionSort decLe).mp hb)
      show b.2.2 ≤ a.2.2
      unfold decLe at hab
      rcases hab with hlt | ⟨heq, _⟩
      · rw [negU8_eq _ ha'.1 ha'.2, negU8_eq _ hb'.1 hb'.2] at hlt
        omega
      · rw [negU8_eq _ ha'.1 ha'.2, negU8_eq _ hb'.1 hb'.2] at heq
        omega
    · exact (((List.perm_insertionSort encLe (candidates m w h t)).map
        fun c => c.2.2).nodup_iff).mpr hnd
  · exact ⟨zeroMap, 2, 1, (0, 0, 0), by decide, by decide, by decide, by decide⟩
  · exact ⟨tieMap, 2, 2, 100, (0, 0, 200), (1, 0, 200),
      by decide, by decide, by decide, by decide, by decide⟩

/-- Witness for the amended C3's universal half: a `uint8`-valued 2×2 map
with pairwise-distinct scores at threshold 1, where the two candidate
orderings agree. -/
theorem c3_witness :
    (∀ v ∈ distinctMap, v < 256) ∧
    ((candidates distinctMap 2 2 1).map fun c => c.2.2).Nodup ∧
    encSort (candidates distinctMap 2 2 1) = decSort (candidates distinctMap 2 2 1) :=
  ⟨by decide, by decide,
    c3_candidate_orders.1 distinctMap 2 2 1 (by decide) (by decide) (by decide)⟩

/-- Claim C4 (confirmed).  Whenever the framed bitstream is longer than the
candidate count, `encode_ai` rejects the message with an error — no output
buffer is ever produced, so no pixel is mutated; and when the message also
passes the earlier whole-image check, the error raised is exactly the
candidate-count rejection, i.e. the check is against the threshold-dependent
candidate capacity, not the whole-image capacity. -/
theorem c4_capacity_check (img : Image) (msg : String) (t : Nat)
    (e : List Nat → List Nat)
    (hbits : (aiBitstream msg).length >
      (encSort (candidates (encImportanceMap e img) img.width img.height t)).length) :
    (∀ out, encode_ai img msg t e ≠ .ok out) ∧
    ((msg.length : Int) ≤ maxMessageSize img →
      encode_ai img msg t e = .error .notEnoughPixels) := by
  constructor
  · intro out
    simp only [encode_ai]
    by_cases h1 : (msg.length : Int) > maxMessageSize img
    · rw [if_pos h1]
      exact fun hcontra => Except.noConfusion hcontra
    · rw [if_neg h1, if_pos hbits]
      exact fun hcontra => Except.noConfusion hcontra
  · intro hle
    simp only [encode_ai]
    rw [if_neg (not_lt.mpr hle), if_pos hbits]

/-- Witness for C4: a 4×4 image whose whole-image capacity admits a
1-character message, with an edge map on which no pixel reaches the
threshold — the candidate-count check fires even though the whole-image
check passes. -/
theorem c4_witness :
    ((aiBitstream "A").length >
      (encSort (candidates (encImportanceMap (constMap 16 0) img4x4)
        img4x4.width img4x4.height 100)).length) ∧
    (("A" : String).length : Int) ≤ maxMessageSize img4x4 ∧
    encode_ai img4x4 "A" 100 (constMap 16 0) = .error .notEnoughPixels :=
  ⟨by decide, by decide,
    (c4_capacity_check img4x4 "A" 100 (constMap 16 0) (by decide)).2 (by decide)⟩

/-- Claim C9 (confirmed).  Every successful single-channel encode —
importance-guided (`encode_ai`) or uniform (`encode_lsb`) — preserves the
buffer size, every pixel's green and blue channels, and every red
channel's high bits (so a red value changes at most in its LSB); and any
pixel that is not among the first `len(bitstream)` entries of the
candidate sequence (the sorted candidates for `encode_ai`, the raster scan
for `encode_lsb`) is entirely unchanged. -/
theorem c9_frame_effect :
    (∀ (img : Image) (msg : String) (t : Nat) (e : List Nat → List Nat) (out : Image),
      encode_ai img msg t e = .ok out →
      out.width = img.width ∧ out.height = img.height ∧
      out.data.length = img.data.length ∧
      ∀ (j : Nat) (d : Pixel),
        ((out.data.getD j d).2 = (img.data.getD j d).2 ∧
         (out.data.getD j d).1 / 2 = (img.data.getD j d).1 / 2) ∧
        (j ∉ ((encSort (candidates (encImportanceMap e img) img.width img.height t)).take
              (aiBitstream msg).length).map (candIdx img.width) →
          out.data.getD j d = img.data.getD j d)) ∧
    (∀ (img : Image) (msg : String) (out : Image),
      encode_lsb img msg = .ok out →
      out.width = img.width ∧ out.height = img.height ∧
      out.data.length = img.data.length ∧
      ∀ (j : Nat) (d : Pixel),
        ((out.data.getD j d).2 = (img.data.getD j d).2 ∧
         (out.data.getD j d).1 / 2 = (img.data.getD j d).1 / 2) ∧
        (j ∉ ((rasterCands img.width img.height).take
              (lsbBitstream msg).length).map (candIdx img.width) →
          out.data.getD j d = img.data.getD j d)) := by
  constructor
  · intro img msg t e out hok
    simp only [encode_ai] at hok
    by_cases h1 : (msg.length : Int) > maxMessageSize img
    · rw [if_pos h1] at hok
      exact absurd hok (fun hcontra => Except.noConfusion hcontra)
    · rw [if_neg h1] at hok
      by_cases h2 : (aiBitstream msg).length >
          (encSort (candidates (encImportanceMap e img) img.width img.height t)).length
      · rw [if_pos h2] at hok
        exact absurd hok (fun hcontra => Except.noConfusion hcontra)
      · rw [if_neg h2] at hok
        cases hok
        have hfr := frame_of_writeBits img.width img.data (aiBitstream msg)
          (encSort (candidates (encImportanceMap e img) img.width img.height t))
        exact ⟨rfl, rfl, hfr.1, fun j d =>
          ⟨⟨(hfr.2 j d).1, (hfr.2 j d).2.1⟩, (hfr.2 j d).2.2⟩⟩
  · intro img msg out hok
    simp only [encode_lsb] at hok
    by_cases h1 : (msg.length : Int) > maxMessageSize img
    · rw [if_pos h1] at hok
      exact absurd hok (fun hcontra => Except.noConfusion hcontra)
    · rw [if_neg h1] at hok
      cases hok
      have hfr := frame_of_writeBits img.width img.data (lsbBitstream msg)
        (rasterCands img.width img.height)
      exact ⟨rfl, rfl, hfr.1, fun j d =>
        ⟨⟨(hfr.2 j d).1, (hfr.2 j d).2.1⟩, (hfr.2 j d).2.2⟩⟩

/-- Witness for C9: both encoders applied at concrete successful encodes;
the first conclusion instantiated at one in-range buffer position each. -/
theorem c9_witness :
    (stego64.data.getD 2 (0, 0, 0)).2 = (img64.data.getD 2 (0, 0, 0)).2 ∧
    (lsbStego16.data.getD 3 (0, 0, 0)).2 = (img16.data.getD 3 (0, 0, 0)).2 :=
  ⟨(((c9_frame_effect.1 img64 "" 100 (constMap 64 128) stego64 (by decide)).2.2.2
      2 (0, 0, 0)).1).1,
   (((c9_frame_effect.2 img16 "A" lsbStego16 (by decide)).2.2.2 3 (0, 0, 0)).1).1⟩

end Steg
